import Mathlib

/-!
Verification development for the local encrypted item store
(`src/lib/local_store.ts`) of the passcards password manager.

The store persists encrypted item content under per-item keys
(`content/{uuid}`) and an encrypted overview index under the fixed key
`index` in a key/value object store, and coordinates unlocking through a
key-agent collaborator.  Promise-based asynchronous code is embedded as
explicit state passing: every stateful operation takes a `StoreState` and
returns the new state together with an `Except`-style result and the list
of events it published.  The crypto collaborator is modelled as
transparent (a ciphertext records the key id it was encrypted under and
carries its plaintext), matching the test doubles the repository uses, and
JSON serialization of a document is modelled by the typed document itself.
Database writes that the underlying store rejects are modelled by a set of
failing keys in the state (`StorageFailure` in the error taxonomy).
-/

set_option autoImplicit false

namespace Passcards

/-- Modelled from the spec: `item_store.ItemOpenContents` is not under
`src/`; §3 describes `openContents` as a small set of non-secret fields
always visible when locked. -/
structure ItemOpenContents where
  tags : List String
  faveIndex : Int
deriving DecidableEq, Repr

/-- An item's overview fields, as held in memory by `item_store.Item`
(`uuid`, `title`, timestamps, `trashed`, `typeName`, `openContents`,
`locations`, `account`); the encrypted content payload is kept separately.
Timestamps are milliseconds since the epoch (`Date.getTime()`). -/
structure Item where
  uuid : String
  title : String
  updatedAt : Int
  createdAt : Int
  trashed : Bool
  typeName : String
  openContents : ItemOpenContents
  locations : List String
  account : String
deriving DecidableEq, Repr

/-- The `ItemOverview` record of `local_store.ts`: the projection of an
item stored in the overview index (all fields of `Item` except the uuid,
which is the index key). -/
structure ItemOverview where
  title : String
  updatedAt : Int
  createdAt : Int
  trashed : Bool
  typeName : String
  openContents : ItemOpenContents
  locations : List String
  account : String
deriving DecidableEq, Repr

/-- Modelled from the spec: `item_store.ItemContent` is not under `src/`;
§3 describes it as the full item content, secrets included, from which the
overview's `locations` and `account` fields derive. -/
structure ItemContent where
  urls : List String
  account : String
  notes : String
  formFields : List (String × String)
deriving DecidableEq, Repr

/-- A JSON document handled by the store: either the whole overview index
(a uuid-keyed map serialized as one document) or one item's content.  A
JavaScript object's string keys enumerate in insertion order, so the map
is an association list. -/
inductive Plaintext where
  | indexDoc (entries : List (String × ItemOverview))
  | contentDoc (content : ItemContent)
deriving DecidableEq, Repr

/-- The result of `keyAgent.encrypt(keyId, plaintext, params)` with the
crypto collaborator transparent: the ciphertext records the key id and
carries the plaintext; `decrypt` returns the plaintext. -/
structure Ciphertext where
  keyId : String
  plain : Plaintext
deriving DecidableEq, Repr

/-- The `EncryptedContent` wrapper of `local_store.ts`: the object stored
under `content/{uuid}` holds the encrypted data in its `data` field. -/
structure EncryptedContent where
  data : Ciphertext
deriving DecidableEq, Repr

/-- A value held by the `item-store` object store: the index is stored as
the encrypted string itself, content entries as `EncryptedContent`
objects. -/
inductive DBValue where
  | str (c : Ciphertext)
  | obj (e : EncryptedContent)
deriving DecidableEq, Repr

/-- Modelled from the spec: `key_agent.Key` is not under `src/`; §3
describes a persisted key as an identifier plus password-encrypted key
material.  With transparent crypto the sealing password is recorded
alongside the material. -/
structure Key where
  identifier : String
  password : String
  material : String
deriving DecidableEq, Repr

/-- A key decrypted during unlock, ready to be added to the key agent
(`key.id` and `key.key` in `local_store.ts`). -/
structure DecryptedKey where
  id : String
  key : String
deriving DecidableEq, Repr

/-- Modelled from the spec: the Key Agent collaborator (§4.1, §6) holds
decrypted keys in memory; `listKeys` returns their ids, `addKey`
registers a key. -/
structure KeyAgent where
  keys : List (String × String)
deriving DecidableEq, Repr

/-- A value held by the `key-store` object store: persisted keys under
`key/{id}` and the password hint under `hint`. -/
inductive KeyStoreValue where
  | key (k : Key)
  | hintVal (h : String)
deriving DecidableEq, Repr

/-- The error taxonomy of §7: `Locked`, `NoKeys`, `InvalidPassword`,
`NotFound`, `StorageFailure`, plus `loadItem`'s `No such item` rejection
and the ill-typed-database case that well-formed stores never reach. -/
inductive StoreError where
  | locked
  | noKeys
  | invalidPassword
  | notFound
  | storageFailure
  | noSuchItem (uuid : String)
  | typeError
deriving DecidableEq, Repr

/-- An event published on one of the store's event streams
(`onItemUpdated`, `onUnlock`). -/
inductive StoreEvent where
  | itemUpdated (item : Item)
  | unlocked
deriving DecidableEq, Repr

/-- The `ListItemsOptions` object; `includeTombstones` defaults to
`false` (an absent field is falsy). -/
structure ListItemsOptions where
  includeTombstones : Bool := false
deriving DecidableEq, Repr

/-- The state a `Store` operates on: the `item-store` and `key-store`
object stores (string-keyed association lists), the key agent, and the
set of database keys whose writes the underlying store rejects
(modelling `StorageFailure`). -/
structure StoreState where
  itemStore : List (String × DBValue)
  keyStore : List (String × KeyStoreValue)
  agent : KeyAgent
  failingKeys : List String
deriving DecidableEq, Repr

/-- The outcome of a stateful operation: the state after the operation
(errors do not roll back writes that already happened), the resolved or
rejected result, and the events published. -/
structure OpResult (α : Type) where
  state : StoreState
  result : Except StoreError α
  events : List StoreEvent
deriving Repr

/-- Lookup in a string-keyed association list (`ObjectStore.get` /
JavaScript object and `Map` indexing). -/
def alistGet {α : Type} (l : List (String × α)) (k : String) : Option α :=
  (l.find? (fun p => p.1 = k)).map (fun p => p.2)

/-- Update in a string-keyed association list with JavaScript object /
`Map` semantics: setting an existing key overwrites in place (keeping its
position), setting a new key appends. -/
def alistSet {α : Type} (l : List (String × α)) (k : String) (v : α) :
    List (String × α) :=
  if (l.find? (fun p => p.1 = k)).isSome then
    l.map (fun p => if p.1 = k then (k, v) else p)
  else
    l ++ [(k, v)]

/-- Modelled from the spec: `item_store.Item.isTombstone` is not under
`src/`; the glossary defines a tombstone as a logically deleted item
marked `trashed`, and §8 equates filtering tombstones with
`trashed === true`. -/
def Item.isTombstone (it : Item) : Bool :=
  it.trashed

/-- Modelled from the spec: `item_store.Item.updateTimestamps` is not
under `src/`; §4.6 says `saveItem` stamps the item's update timestamps. -/
def Item.updateTimestamps (now : Int) (it : Item) : Item :=
  { it with updatedAt := now }

/-- Modelled from the spec: `item_store.Item.updateOverviewFromContent`
is not under `src/`; §3 describes `locations` as the item's associated
URLs and `account` as its associated account identifier, both derived
from the content. -/
def Item.updateOverviewFromContent (it : Item) (c : ItemContent) : Item :=
  { it with locations := c.urls, account := c.account }

/-- Modelled from the spec: `collectionutil.listToMap` is not under
`src/`; `updateIndex` uses it to build a uuid-keyed `Map` from the listed
items (§4.3 step 2). -/
def listToMap (items : List Item) : List (String × Item) :=
  items.foldl (fun m it => alistSet m it.uuid it) []

/-- Modelled from the spec: `key_agent.decryptKeys` is not under `src/`;
§4.4 says the keyset is decrypted with the password and fails with an
`InvalidPassword`/derivation error when decryption fails.  With
transparent crypto a key decrypts exactly when it was sealed under the
given password. -/
def decryptKeys (keys : List Key) (pwd : String) :
    Except StoreError (List DecryptedKey) :=
  if keys.all (fun k => k.password = pwd) then
    Except.ok (keys.map (fun k => { id := k.identifier, key := k.material }))
  else
    Except.error StoreError.invalidPassword

/-- Modelled from the spec: `KeyAgent.addKey(id, material)` registers a
decrypted key in the agent's in-memory set (§4.1). -/
def KeyAgent.addKey (a : KeyAgent) (id material : String) : KeyAgent :=
  { a with keys := a.keys ++ [(id, material)] }

/-- Modelled from the spec: `KeyAgent.listKeys` returns the ids of the
keys currently held (§4.1). -/
def KeyAgent.listKeys (a : KeyAgent) : List String :=
  a.keys.map (fun p => p.1)

/-- The private `overviewKey` of `local_store.ts`: the first key id the
key agent lists; throws the `Locked` error when the agent lists none. -/
def overviewKey (a : KeyAgent) : Except StoreError String :=
  match a.listKeys with
  | [] => Except.error StoreError.locked
  | k :: _ => Except.ok k

/-- The private `keyForItem` of `local_store.ts`: the content key for any
item is the overview key. -/
def keyForItem (a : KeyAgent) (_it : Item) : Except StoreError String :=
  overviewKey a

/-- A write through `ObjectStore.set`: rejected with `StorageFailure`
when the underlying database fails for that key, otherwise the value is
stored. -/
def dbSet (st : StoreState) (k : String) (v : DBValue) :
    Except StoreError StoreState :=
  if k ∈ st.failingKeys then
    Except.error StoreError.storageFailure
  else
    Except.ok { st with itemStore := alistSet st.itemStore k v }

/-- The `itemFromOverview` of `local_store.ts`: reconstruct a lightweight
`Item` from an index entry. -/
def itemFromOverview (uuid : String) (ov : ItemOverview) : Item :=
  { uuid := uuid
    title := ov.title
    updatedAt := ov.updatedAt
    createdAt := ov.createdAt
    trashed := ov.trashed
    typeName := ov.typeName
    openContents := ov.openContents
    account := ov.account
    locations := ov.locations }

/-- The `overviewFromItem` of `local_store.ts`: project an item to the
record stored in the overview index. -/
def overviewFromItem (it : Item) : ItemOverview :=
  { title := it.title
    updatedAt := it.updatedAt
    createdAt := it.createdAt
    trashed := it.trashed
    typeName := it.typeName
    openContents := it.openContents
    locations := it.locations
    account := it.account }

/-- The filtering loop of `listItems`: build items from the overview map
in document order, keeping an entry unless it is a tombstone and
`includeTombstones` was not requested. -/
def buildItems (entries : List (String × ItemOverview))
    (opts : ListItemsOptions) : List Item :=
  entries.foldl
    (fun acc p =>
      let item := itemFromOverview p.1 p.2
      if !item.isTombstone || opts.includeTombstones then acc ++ [item]
      else acc)
    []

/-- The `listItems` of `local_store.ts`: resolve the overview key, fetch
the `index` entry (an absent entry parses to the empty map), decrypt it,
and build the filtered item list. -/
def listItems (st : StoreState) (opts : ListItemsOptions) :
    Except StoreError (List Item) :=
  match overviewKey st.agent with
  | Except.error e => Except.error e
  | Except.ok _key =>
    match alistGet st.itemStore "index" with
    | none => Except.ok (buildItems [] opts)
    | some (DBValue.str c) =>
      match c.plain with
      | Plaintext.indexDoc m => Except.ok (buildItems m opts)
      | Plaintext.contentDoc _ => Except.error StoreError.typeError
    | some (DBValue.obj _) => Except.error StoreError.typeError

/-- The private `updateIndex` of `local_store.ts`: list all items with
tombstones included, overlay the batch onto the uuid-keyed map, project
every item to its overview, encrypt the whole map under the overview key
and store it under `index` as one write. -/
def updateIndex (st : StoreState) (updatedItems : List Item) :
    OpResult Unit :=
  match listItems st { includeTombstones := true } with
  | Except.error e => { state := st, result := Except.error e, events := [] }
  | Except.ok items =>
    let itemMap :=
      updatedItems.foldl (fun m it => alistSet m it.uuid it) (listToMap items)
    let overviewMap := itemMap.map (fun p => (p.1, overviewFromItem p.2))
    match overviewKey st.agent with
    | Except.error e => { state := st, result := Except.error e, events := [] }
    | Except.ok key =>
      match dbSet st "index"
          (DBValue.str { keyId := key, plain := Plaintext.indexDoc overviewMap }) with
      | Except.error e =>
        { state := st, result := Except.error e, events := [] }
      | Except.ok st' =>
        { state := st', result := Except.ok (), events := [] }

/-- The `loadItem` of `local_store.ts`: list items (tombstones excluded
by default), filter by uuid, resolve the first match or reject with
`No such item`. -/
def loadItem (st : StoreState) (uuid : String) : Except StoreError Item :=
  match listItems st {} with
  | Except.error e => Except.error e
  | Except.ok items =>
    match items.filter (fun it => it.uuid = uuid) with
    | [] => Except.error (StoreError.noSuchItem uuid)
    | it :: _ => Except.ok it

/-- The `saveItem` of `local_store.ts`: stamp update timestamps, resolve
the item's key, refresh the overview from the content, then issue the two
concurrent writes — push the item to the index-update queue (which, with
no other save in flight, flushes the singleton batch, §4.2) and store the
encrypted content under `content/{uuid}`.  Both writes proceed
independently; the operation resolves and `onItemUpdated` is published
only when both succeeded, and a failed write never rolls the other
back. -/
def saveItem (st : StoreState) (item0 : Item) (content : ItemContent)
    (now : Int) : OpResult Unit :=
  let item1 := Item.updateTimestamps now item0
  match keyForItem st.agent item1 with
  | Except.error e => { state := st, result := Except.error e, events := [] }
  | Except.ok key =>
    let item := item1.updateOverviewFromContent content
    let encryptedContent : EncryptedContent :=
      { data := { keyId := key, plain := Plaintext.contentDoc content } }
    let contentKey := "content/" ++ item.uuid
    let flush := updateIndex st [item]
    if contentKey ∈ st.failingKeys then
      { state := flush.state
        result := Except.error
          (match flush.result with
           | Except.error e => e
           | Except.ok _ => StoreError.storageFailure)
        events := [] }
    else
      let st2 :=
        { flush.state with
          itemStore :=
            alistSet flush.state.itemStore contentKey
              (DBValue.obj encryptedContent) }
      match flush.result with
      | Except.ok _ =>
        { state := st2, result := Except.ok ()
          events := [StoreEvent.itemUpdated item] }
      | Except.error e =>
        { state := st2, result := Except.error e, events := [] }

/-- The `getContent` of `local_store.ts`: resolve the item's key, fetch
`content/{uuid}` (rejecting when absent — `NotFound` in the §7 taxonomy),
decrypt the `data` field and deserialize it into an `ItemContent`. -/
def getContent (st : StoreState) (it : Item) :
    Except StoreError ItemContent :=
  match keyForItem st.agent it with
  | Except.error e => Except.error e
  | Except.ok _key =>
    match alistGet st.itemStore ("content/" ++ it.uuid) with
    | none => Except.error StoreError.notFound
    | some (DBValue.obj e) =>
      match e.data.plain with
      | Plaintext.contentDoc c => Except.ok c
      | Plaintext.indexDoc _ => Except.error StoreError.typeError
    | some (DBValue.str _) => Except.error StoreError.typeError

/-- Modelled from the spec: `ObjectStore.list(pre)` enumerates keys by
prefix (§6); the prefix test compares the character sequences. -/
def strHasPre (pre s : String) : Bool :=
  pre.data.isPrefixOf s.data

/-- The `listKeys` of `local_store.ts`: enumerate the key-store entries
under the `key/` id namespace (the hint entry is not in that
namespace). -/
def storeListKeys (ks : List (String × KeyStoreValue)) : List Key :=
  ks.foldr
    (fun p acc =>
      if strHasPre "key/" p.1 then
        match p.2 with
        | KeyStoreValue.key k => k :: acc
        | KeyStoreValue.hintVal _ => acc
      else acc)
    []

/-- The `unlock` of `local_store.ts`: load the persisted keys, failing
with `NoKeys` when none exist; decrypt them with the password, failing
with the derivation error when that fails; add every decrypted key to the
key agent and then publish `onUnlock` once. -/
def unlock (st : StoreState) (pwd : String) : OpResult Unit :=
  let keys := storeListKeys st.keyStore
  if keys.isEmpty then
    { state := st, result := Except.error StoreError.noKeys, events := [] }
  else
    match decryptKeys keys pwd with
    | Except.error e =>
      { state := st, result := Except.error e, events := [] }
    | Except.ok dks =>
      { state :=
          { st with
            agent := dks.foldl (fun a dk => a.addKey dk.id dk.key) st.agent }
        result := Except.ok ()
        events := [StoreEvent.unlocked] }

/-- Modelled from the spec: `collectionutil.BatchedUpdateQueue` is not
under `src/`; §4.2 gives its algorithm.  The queue holds a pending list
and the batch currently being flushed; the store it flushes into is part
of the state. -/
structure QueueState where
  pending : List Item
  running : Option (List Item)
  store : StoreState
deriving Repr

/-- An event in the life of the batched update queue: a caller pushes an
item, or the flush in flight completes. -/
inductive QOp where
  | push (it : Item)
  | complete
deriving Repr

/-- Modelled from the spec: one step of the Batched Update Queue (§4.2).
On a push, the item joins the pending list; when no flush is running one
starts with the current pending list, which is cleared.  When a flush
completes, its batch has been applied to the store through `updateIndex`;
a follow-up flush starts if items were pushed meanwhile. -/
def queueStep (q : QueueState) : QOp → QueueState
  | QOp.push it =>
    let pending' := q.pending ++ [it]
    match q.running with
    | none => { q with pending := [], running := some pending' }
    | some _ => { q with pending := pending' }
  | QOp.complete =>
    match q.running with
    | none => q
    | some batch =>
      let st' := (updateIndex q.store batch).state
      match q.pending with
      | [] => { q with store := st', running := none }
      | p :: ps =>
        { q with store := st', running := some (p :: ps), pending := [] }

/-- Run the queue over a sequence of events. -/
def runTrace (q : QueueState) (tr : List QOp) : QueueState :=
  tr.foldl queueStep q

/-- The items pushed over a trace, in push order. -/
def pushedItems (tr : List QOp) : List Item :=
  tr.filterMap
    (fun op =>
      match op with
      | QOp.push it => some it
      | QOp.complete => none)

/-- A key-value list has pairwise distinct keys (JavaScript objects and
`Map`s always do). -/
def distinctKeys {α : Type} (l : List (String × α)) : Bool :=
  (l.map Prod.fst).Nodup

/-- The overview map currently stored under `index`, or the empty map
when the entry is absent or ill-typed. -/
def indexMap (st : StoreState) : List (String × ItemOverview) :=
  match alistGet st.itemStore "index" with
  | some (DBValue.str c) =>
    match c.plain with
    | Plaintext.indexDoc m => m
    | Plaintext.contentDoc _ => []
  | _ => []

/-- A store's `index` entry is well formed: absent, or an encrypted index
document whose keys are pairwise distinct.  Every index the store itself
writes satisfies this. -/
def indexWF (st : StoreState) : Bool :=
  match alistGet st.itemStore "index" with
  | none => true
  | some (DBValue.str c) =>
    match c.plain with
    | Plaintext.indexDoc m => distinctKeys m
    | Plaintext.contentDoc _ => false
  | some (DBValue.obj _) => false

/-- The last item of a batch bearing a given uuid: the winner under the
last-writer-wins overlay of `updateIndex`. -/
def lastWithUuid (batch : List Item) (u : String) : Option Item :=
  batch.reverse.find? (fun it => it.uuid = u)

/-! Association-list lemmas. -/

theorem alistGet_eq_none_iff {α : Type} (l : List (String × α)) (k : String) :
    alistGet l k = none ↔ (l.find? fun p => p.1 = k) = none := by
  unfold alistGet
  cases l.find? fun p => p.1 = k <;> simp

theorem alistGet_cons {α : Type} (p : String × α) (l : List (String × α))
    (k : String) :
    alistGet (p :: l) k = if p.1 = k then some p.2 else alistGet l k := by
  by_cases hp : p.1 = k <;> simp [alistGet, List.find?_cons, hp]

theorem alistGet_append {α : Type} (l₁ l₂ : List (String × α)) (k : String) :
    alistGet (l₁ ++ l₂) k = (alistGet l₁ k).or (alistGet l₂ k) := by
  unfold alistGet
  rw [List.find?_append]
  cases l₁.find? fun p => p.1 = k <;> simp

theorem alistGet_map_update_self {α : Type} (l : List (String × α))
    (k : String) (v : α) (h : (l.find? fun p => p.1 = k).isSome = true) :
    alistGet (l.map fun p => if p.1 = k then (k, v) else p) k = some v := by
  induction l with
  | nil => simp [List.find?] at h
  | cons p rest ih =>
    rw [List.map_cons, alistGet_cons]
    by_cases hp : p.1 = k
    · rw [if_pos hp]
      simp
    · rw [if_neg hp, if_neg hp]
      exact ih (by simpa [List.find?_cons, hp] using h)

theorem alistGet_map_update_ne {α : Type} (l : List (String × α))
    (k k' : String) (v : α) (h : k' ≠ k) :
    alistGet (l.map fun p => if p.1 = k then (k, v) else p) k' =
      alistGet l k' := by
  induction l with
  | nil => rfl
  | cons p rest ih =>
    rw [List.map_cons, alistGet_cons, alistGet_cons, ih]
    by_cases hp : p.1 = k
    · rw [if_pos hp]
      have h1 : ¬((k, v).1 = k') := fun hkk => h hkk.symm
      have h2 : ¬(p.1 = k') := by
        rw [hp]
        intro hkk
        exact h hkk.symm
      rw [if_neg h1, if_neg h2]
    · rw [if_neg hp]

theorem alistGet_append_of_none {α : Type} (l₁ l₂ : List (String × α))
    (k : String) (h : alistGet l₁ k = none) :
    alistGet (l₁ ++ l₂) k = alistGet l₂ k := by
  rw [alistGet_append, h, Option.none_or]

theorem alistGet_append_of_some {α : Type} (l₁ l₂ : List (String × α))
    (k : String) (v : α) (h : alistGet l₁ k = some v) :
    alistGet (l₁ ++ l₂) k = some v := by
  rw [alistGet_append, h]
  rfl

theorem alistGet_alistSet_self {α : Type} (l : List (String × α))
    (k : String) (v : α) : alistGet (alistSet l k v) k = some v := by
  unfold alistSet
  by_cases h : (l.find? fun p => p.1 = k).isSome = true
  · simpa [h] using alistGet_map_update_self l k v h
  · have h0 : (l.find? fun p => p.1 = k) = none := by
      cases hf : l.find? fun p => p.1 = k
      · rfl
      · simp [hf] at h
    have h1 : alistGet l k = none := (alistGet_eq_none_iff l k).mpr h0
    simp only [h0]
    simp only [Option.isSome_none, Bool.false_eq_true, if_false]
    rw [alistGet_append_of_none l [(k, v)] k h1]
    simp [alistGet, List.find?]

theorem alistGet_alistSet_ne {α : Type} (l : List (String × α))
    (k k' : String) (v : α) (h : k' ≠ k) :
    alistGet (alistSet l k v) k' = alistGet l k' := by
  unfold alistSet
  by_cases hf : (l.find? fun p => p.1 = k).isSome = true
  · simpa [hf] using alistGet_map_update_ne l k k' v h
  · have h0 : (l.find? fun p => p.1 = k) = none := by
      cases hff : l.find? fun p => p.1 = k
      · rfl
      · simp [hff] at hf
    simp only [h0, Option.isSome_none, Bool.false_eq_true, if_false]
    cases ha : alistGet l k'
    · rw [alistGet_append_of_none l [(k, v)] k' ha]
      have : ¬(k = k') := fun hkk => h hkk.symm
      simp [alistGet, List.find?, this, ha]
    · rw [alistGet_append_of_some l [(k, v)] k' _ ha]

theorem alistSet_of_get_none {α : Type} (l : List (String × α))
    (k : String) (v : α) (h : alistGet l k = none) :
    alistSet l k v = l ++ [(k, v)] := by
  unfold alistSet
  rw [alistGet_eq_none_iff] at h
  simp [h]

theorem distinctKeys_iff {α : Type} (l : List (String × α)) :
    distinctKeys l = true ↔ (l.map Prod.fst).Nodup := by
  simp [distinctKeys]

theorem distinctKeys_alistSet {α : Type} (l : List (String × α))
    (k : String) (v : α) (h : distinctKeys l = true) :
    distinctKeys (alistSet l k v) = true := by
  rw [distinctKeys_iff] at h ⊢
  unfold alistSet
  by_cases hf : (l.find? fun p => p.1 = k).isSome = true
  · simp only [hf, if_true]
    have hkeys :
        (l.map fun p => if p.1 = k then (k, v) else p).map Prod.fst =
          l.map Prod.fst := by
      rw [List.map_map]
      apply List.map_congr_left
      intro p _
      by_cases hp : p.1 = k
      · simp [Function.comp, hp]
      · simp [Function.comp, hp]
    rw [hkeys]
    exact h
  · have h0 : (l.find? fun p => p.1 = k) = none := by
      cases hff : l.find? fun p => p.1 = k
      · rfl
      · simp [hff] at hf
    have hnot : k ∉ l.map Prod.fst := by
      intro hmem
      obtain ⟨p, hp, hk⟩ := List.mem_map.mp hmem
      have := List.find?_eq_none.mp h0 p hp
      simp [hk] at this
    simp only [h0, Option.isSome_none, Bool.false_eq_true, if_false]
    rw [List.map_append]
    simp [List.nodup_append, h, hnot]

theorem overview_roundtrip (u : String) (ov : ItemOverview) :
    overviewFromItem (itemFromOverview u ov) = ov := rfl

theorem itemFromOverview_uuid (u : String) (ov : ItemOverview) :
    (itemFromOverview u ov).uuid = u := rfl

theorem item_roundtrip (it : Item) :
    itemFromOverview it.uuid (overviewFromItem it) = it := rfl

theorem alistGet_map_value {α β : Type} (m : List (String × α))
    (f : String → α → β) (u : String) :
    alistGet (m.map fun p => (p.1, f p.1 p.2)) u =
      (alistGet m u).map (f u) := by
  induction m with
  | nil => rfl
  | cons p rest ih =>
    rw [List.map_cons, alistGet_cons, alistGet_cons, ih]
    by_cases hp : p.1 = u
    · simp only [hp, if_pos rfl]
      rfl
    · rw [if_neg hp, if_neg hp]

theorem alistGet_foldl_overlay (batch : List Item)
    (m0 : List (String × Item)) (u : String) :
    alistGet (batch.foldl (fun m it => alistSet m it.uuid it) m0) u =
      match lastWithUuid batch u with
      | some it => some it
      | none => alistGet m0 u := by
  induction batch generalizing m0 with
  | nil => simp [lastWithUuid]
  | cons it rest ih =>
    rw [List.foldl_cons, ih]
    unfold lastWithUuid
    rw [List.reverse_cons, List.find?_append]
    cases hr : rest.reverse.find? fun j => j.uuid = u with
    | some j => simp
    | none =>
      simp only [Option.none_or]
      by_cases hu : it.uuid = u
      · have hone : List.find? (fun j => decide (j.uuid = u)) [it] = some it := by
          simp [List.find?, hu]
        rw [hone, ← hu]
        exact alistGet_alistSet_self m0 it.uuid it
      · have hone : List.find? (fun j => decide (j.uuid = u)) [it] = none := by
          simp [List.find?, hu]
        rw [hone]
        exact alistGet_alistSet_ne m0 it.uuid u it (fun hh => hu hh.symm)

theorem listToMap_from_acc (items : List Item) (acc : List (String × Item))
    (hdisj : ∀ it ∈ items, alistGet acc it.uuid = none)
    (hnodup : (items.map Item.uuid).Nodup) :
    items.foldl (fun m it => alistSet m it.uuid it) acc =
      acc ++ items.map (fun it => (it.uuid, it)) := by
  induction items generalizing acc with
  | nil => simp
  | cons it rest ih =>
    rw [List.foldl_cons,
      alistSet_of_get_none acc it.uuid it (hdisj it (List.mem_cons_self it rest))]
    rw [List.map_cons] at hnodup ⊢
    have hnotin : it.uuid ∉ rest.map Item.uuid := (List.nodup_cons.mp hnodup).1
    have hrest : (rest.map Item.uuid).Nodup := (List.nodup_cons.mp hnodup).2
    rw [ih (acc ++ [(it.uuid, it)]) ?_ hrest]
    · simp
    · intro j hj
      have hne : j.uuid ≠ it.uuid := by
        intro he
        exact hnotin (he ▸ List.mem_map_of_mem Item.uuid hj)
      rw [alistGet_append,
        hdisj j (List.mem_cons_of_mem it hj), Option.none_or,
        alistGet_cons]
      rw [if_neg (fun hh => hne hh.symm)]
      rfl

theorem listToMap_of_nodup (items : List Item)
    (hnodup : (items.map Item.uuid).Nodup) :
    listToMap items = items.map (fun it => (it.uuid, it)) := by
  unfold listToMap
  rw [listToMap_from_acc items [] (fun it _ => rfl) hnodup]
  simp

theorem buildItems_go (m : List (String × ItemOverview))
    (opts : ListItemsOptions) (acc : List Item) :
    m.foldl
      (fun acc p =>
        let item := itemFromOverview p.1 p.2
        if !item.isTombstone || opts.includeTombstones then acc ++ [item]
        else acc)
      acc =
      acc ++ (m.map fun p => itemFromOverview p.1 p.2).filter
        (fun it => !it.isTombstone || opts.includeTombstones) := by
  induction m generalizing acc with
  | nil => simp
  | cons p rest ih =>
    rw [List.foldl_cons, ih]
    cases hc : !(itemFromOverview p.1 p.2).isTombstone || opts.includeTombstones
    · simp [List.filter_cons, hc]
    · simp [List.filter_cons, hc]

theorem buildItems_eq_filter (m : List (String × ItemOverview))
    (opts : ListItemsOptions) :
    buildItems m opts =
      (m.map fun p => itemFromOverview p.1 p.2).filter
        (fun it => !it.isTombstone || opts.includeTombstones) := by
  unfold buildItems
  rw [buildItems_go]
  simp

theorem buildItems_true (m : List (String × ItemOverview)) :
    buildItems m { includeTombstones := true } =
      m.map fun p => itemFromOverview p.1 p.2 := by
  rw [buildItems_eq_filter]
  simp

theorem mem_buildItems_false {m : List (String × ItemOverview)} {it : Item}
    (h : it ∈ buildItems m { includeTombstones := false }) :
    it.trashed = false := by
  rw [buildItems_eq_filter] at h
  have h2 := (List.mem_filter.mp h).2
  simpa [Item.isTombstone] using h2

theorem indexMap_distinct (st : StoreState) (hwf : indexWF st = true) :
    distinctKeys (indexMap st) = true := by
  unfold indexWF at hwf
  unfold indexMap
  cases hg : alistGet st.itemStore "index" with
  | none => rfl
  | some v =>
    rw [hg] at hwf
    cases v with
    | str c =>
      cases c with
      | mk ck cp =>
        cases cp with
        | indexDoc m => exact hwf
        | contentDoc cc => simp at hwf
    | obj e => simp at hwf

theorem listItems_ok (st : StoreState) (opts : ListItemsOptions)
    (kid : String) (hkid : overviewKey st.agent = Except.ok kid)
    (hwf : indexWF st = true) :
    listItems st opts = Except.ok (buildItems (indexMap st) opts) := by
  unfold listItems indexMap
  rw [hkid]
  unfold indexWF at hwf
  cases hg : alistGet st.itemStore "index" with
  | none => rfl
  | some v =>
    rw [hg] at hwf
    cases v with
    | str c =>
      cases c with
      | mk ck cp =>
        cases cp with
        | indexDoc m => rfl
        | contentDoc cc => simp at hwf
    | obj e => simp at hwf

theorem alistGet_map_val {α β : Type} (m : List (String × α)) (g : α → β)
    (u : String) :
    alistGet (m.map fun p => (p.1, g p.2)) u = (alistGet m u).map g := by
  induction m with
  | nil => rfl
  | cons p rest ih =>
    rw [List.map_cons, alistGet_cons, alistGet_cons, ih]
    by_cases hp : p.1 = u
    · rw [if_pos hp, if_pos hp]
      rfl
    · rw [if_neg hp, if_neg hp]

theorem distinctKeys_map_val {α β : Type} (m : List (String × α))
    (g : α → β) :
    distinctKeys (m.map fun p => (p.1, g p.2)) = distinctKeys m := by
  have hkeys : (m.map fun p => (p.1, g p.2)).map Prod.fst = m.map Prod.fst := by
    rw [List.map_map]
    apply List.map_congr_left
    intro p _
    rfl
  unfold distinctKeys
  rw [hkeys]

theorem distinctKeys_map_value {α β : Type} (m : List (String × α))
    (f : String → α → β) :
    distinctKeys (m.map fun p => (p.1, f p.1 p.2)) = distinctKeys m := by
  have hkeys :
      (m.map fun p => (p.1, f p.1 p.2)).map Prod.fst = m.map Prod.fst := by
    rw [List.map_map]
    apply List.map_congr_left
    intro p _
    rfl
  unfold distinctKeys
  rw [hkeys]

theorem distinctKeys_foldl_overlay (batch : List Item)
    (m0 : List (String × Item)) (h : distinctKeys m0 = true) :
    distinctKeys (batch.foldl (fun m it => alistSet m it.uuid it) m0) = true := by
  induction batch generalizing m0 with
  | nil => exact h
  | cons it rest ih => exact ih _ (distinctKeys_alistSet m0 it.uuid it h)

theorem mapped_items_uuid (m : List (String × ItemOverview)) :
    (m.map fun p => itemFromOverview p.1 p.2).map Item.uuid = m.map Prod.fst := by
  rw [List.map_map]
  apply List.map_congr_left
  intro p _
  rfl

theorem listToMap_mapped_items (m : List (String × ItemOverview))
    (hd : distinctKeys m = true) :
    listToMap (m.map fun p => itemFromOverview p.1 p.2) =
      m.map fun p => (p.1, itemFromOverview p.1 p.2) := by
  rw [listToMap_of_nodup _
    (by rw [mapped_items_uuid]; exact (distinctKeys_iff m).mp hd)]
  rw [List.map_map]
  apply List.map_congr_left
  intro p _
  rfl

theorem updateIndex_ok (st : StoreState) (batch : List Item) (kid : String)
    (hkid : overviewKey st.agent = Except.ok kid)
    (hwf : indexWF st = true)
    (hfail : "index" ∉ st.failingKeys) :
    ∃ entries : List (String × ItemOverview),
      updateIndex st batch =
        { state :=
            { st with
              itemStore :=
                alistSet st.itemStore "index"
                  (DBValue.str
                    { keyId := kid, plain := Plaintext.indexDoc entries }) }
          result := Except.ok ()
          events := [] } ∧
      distinctKeys entries = true ∧
      (∀ u, alistGet entries u =
        match lastWithUuid batch u with
        | some it => some (overviewFromItem it)
        | none => alistGet (indexMap st) u) := by
  have hitems := listItems_ok st { includeTombstones := true } kid hkid hwf
  rw [buildItems_true] at hitems
  have hdk := indexMap_distinct st hwf
  have hl2m := listToMap_mapped_items (indexMap st) hdk
  refine ⟨((batch.foldl (fun m it => alistSet m it.uuid it)
      ((indexMap st).map fun p => (p.1, itemFromOverview p.1 p.2))).map
        fun p => (p.1, overviewFromItem p.2)), ?_, ?_, ?_⟩
  · unfold updateIndex
    rw [hitems]
    simp only [hl2m, hkid, dbSet, hfail, if_false]
  · rw [distinctKeys_map_val]
    exact distinctKeys_foldl_overlay batch _
      (by rw [distinctKeys_map_value (indexMap st) itemFromOverview]; exact hdk)
  · intro u
    rw [alistGet_map_val _ overviewFromItem u, alistGet_foldl_overlay batch _ u]
    cases hlw : lastWithUuid batch u with
    | some it => rfl
    | none =>
      rw [alistGet_map_value (indexMap st) itemFromOverview u]
      cases hg : alistGet (indexMap st) u with
      | none => rfl
      | some ov => rfl

theorem alistGet_eq_none_of_not_mem {α : Type} (l : List (String × α))
    (u : String) (h : u ∉ l.map Prod.fst) : alistGet l u = none := by
  rw [alistGet_eq_none_iff]
  apply List.find?_eq_none.mpr
  intro p hp
  simp only [decide_eq_true_eq]
  intro he
  exact h (he ▸ List.mem_map_of_mem Prod.fst hp)

theorem filter_uuid_buildItems (m : List (String × ItemOverview))
    (u : String) (hd : distinctKeys m = true) :
    (buildItems m { includeTombstones := false }).filter
        (fun j => j.uuid = u) =
      match alistGet m u with
      | some ov => if ov.trashed = true then [] else [itemFromOverview u ov]
      | none => [] := by
  rw [buildItems_eq_filter]
  induction m with
  | nil => rfl
  | cons p rest ih =>
    have h1 := (distinctKeys_iff (p :: rest)).mp hd
    rw [List.map_cons, List.nodup_cons] at h1
    have hih := ih ((distinctKeys_iff rest).mpr h1.2)
    rw [List.map_cons, List.filter_cons, alistGet_cons]
    by_cases htr : p.2.trashed = true
    · have hcond :
          (!(itemFromOverview p.1 p.2).isTombstone || false) = false := by
        simp [Item.isTombstone, itemFromOverview, htr]
      rw [hcond]
      simp only [Bool.false_eq_true, if_false]
      rw [hih]
      by_cases hp : p.1 = u
      · rw [if_pos hp]
        have hnone : alistGet rest u = none :=
          alistGet_eq_none_of_not_mem rest u (hp ▸ h1.1)
        rw [hnone]
        simp [htr]
      · rw [if_neg hp]
    · have hfalse : p.2.trashed = false := by simpa using htr
      have hcond :
          (!(itemFromOverview p.1 p.2).isTombstone || false) = true := by
        simp [Item.isTombstone, itemFromOverview, hfalse]
      rw [hcond]
      simp only [if_true]
      rw [List.filter_cons, hih]
      by_cases hp : p.1 = u
      · have hu : ((itemFromOverview p.1 p.2).uuid = u) = True := by
          simp [itemFromOverview, hp]
        rw [if_pos hp]
        have hnone : alistGet rest u = none :=
          alistGet_eq_none_of_not_mem rest u (hp ▸ h1.1)
        rw [hnone]
        simp only [decide_eq_true_eq, hu]
        simp [htr, hp]
      · rw [if_neg hp]
        have hu : ¬((itemFromOverview p.1 p.2).uuid = u) := by
          simp [itemFromOverview]
          exact hp
        simp [hu]

theorem contentKey_ne_index (u : String) : ("content/" ++ u) ≠ "index" := by
  intro h
  have h2 := congrArg String.length h
  rw [String.length_append] at h2
  have h3 : ("content/" : String).length = 8 := rfl
  have h4 : ("index" : String).length = 5 := rfl
  omega

theorem lastWithUuid_mem {batch : List Item} {u : String} {it : Item}
    (h : lastWithUuid batch u = some it) : it ∈ batch ∧ it.uuid = u := by
  unfold lastWithUuid at h
  refine ⟨List.mem_reverse.mp (List.mem_of_find?_eq_some h), ?_⟩
  have h2 := List.find?_some h
  simpa using h2

theorem lastWithUuid_isSome_of_mem {batch : List Item} {j : Item}
    (h : j ∈ batch) : (lastWithUuid batch j.uuid).isSome = true := by
  unfold lastWithUuid
  rw [List.find?_isSome]
  exact ⟨j, List.mem_reverse.mpr h, by simp⟩

theorem eq_of_mem_nodup_uuid {l : List Item}
    (h : (l.map Item.uuid).Nodup) {a b : Item}
    (ha : a ∈ l) (hb : b ∈ l) (he : a.uuid = b.uuid) : a = b :=
  List.inj_on_of_nodup_map h ha hb he

theorem listItems_ok_inv (st : StoreState) (opts : ListItemsOptions)
    (items : List Item) (h : listItems st opts = Except.ok items) :
    ∃ m, items = buildItems m opts := by
  unfold listItems at h
  cases hov : overviewKey st.agent with
  | error e =>
    rw [hov] at h
    simp at h
  | ok k =>
    rw [hov] at h
    cases hg : alistGet st.itemStore "index" with
    | none =>
      rw [hg] at h
      exact ⟨[], by injection h with h2; exact h2.symm⟩
    | some v =>
      rw [hg] at h
      cases v with
      | str c =>
        cases c with
        | mk ck cp =>
          cases cp with
          | indexDoc m =>
            exact ⟨m, by injection h with h2; exact h2.symm⟩
          | contentDoc cc => simp at h
      | obj e => simp at h

theorem foldl_addKey (dks : List DecryptedKey) (a : KeyAgent) :
    dks.foldl (fun a dk => a.addKey dk.id dk.key) a =
      { keys := a.keys ++ dks.map fun dk => (dk.id, dk.key) } := by
  induction dks generalizing a with
  | nil => simp
  | cons dk rest ih =>
    rw [List.foldl_cons, ih]
    simp [KeyAgent.addKey]

theorem filter_uuid_buildItems_true (m : List (String × ItemOverview))
    (u : String) (hd : distinctKeys m = true) :
    (buildItems m { includeTombstones := true }).filter
        (fun j => j.uuid = u) =
      match alistGet m u with
      | some ov => [itemFromOverview u ov]
      | none => [] := by
  rw [buildItems_true]
  induction m with
  | nil => rfl
  | cons p rest ih =>
    have h1 := (distinctKeys_iff (p :: rest)).mp hd
    rw [List.map_cons, List.nodup_cons] at h1
    have hih := ih ((distinctKeys_iff rest).mpr h1.2)
    rw [List.map_cons, List.filter_cons, alistGet_cons]
    by_cases hp : p.1 = u
    · have hu : ((itemFromOverview p.1 p.2).uuid = u) := hp
      rw [if_pos hp]
      have hnone : alistGet rest u = none :=
        alistGet_eq_none_of_not_mem rest u (hp ▸ h1.1)
      rw [hih, hnone]
      simp [hu, hp, itemFromOverview]
    · rw [if_neg hp]
      have hu : ¬((itemFromOverview p.1 p.2).uuid = u) := hp
      simp only [hu, decide_eq_true_eq, if_false]
      exact hih

theorem updateIndex_fail (st : StoreState) (batch : List Item) (kid : String)
    (hkid : overviewKey st.agent = Except.ok kid)
    (hwf : indexWF st = true)
    (hfi : "index" ∈ st.failingKeys) :
    updateIndex st batch =
      { state := st, result := Except.error StoreError.storageFailure
        events := [] } := by
  have hitems := listItems_ok st { includeTombstones := true } kid hkid hwf
  rw [buildItems_true] at hitems
  have hl2m := listToMap_mapped_items (indexMap st) (indexMap_distinct st hwf)
  unfold updateIndex
  rw [hitems]
  simp only [hl2m, hkid, dbSet, hfi, if_true]

theorem saveItem_ok (st : StoreState) (item0 : Item) (content : ItemContent)
    (now : Int) (kid : String)
    (hkid : overviewKey st.agent = Except.ok kid)
    (hwf : indexWF st = true)
    (hfi : "index" ∉ st.failingKeys)
    (hfc : ("content/" ++ item0.uuid) ∉ st.failingKeys) :
    ∃ st2 : StoreState,
      saveItem st item0 content now =
        { state := st2, result := Except.ok ()
          events := [StoreEvent.itemUpdated
            ((Item.updateTimestamps now item0).updateOverviewFromContent
              content)] } ∧
      alistGet st2.itemStore ("content/" ++ item0.uuid) =
        some (DBValue.obj
          { data := { keyId := kid, plain := Plaintext.contentDoc content } }) ∧
      alistGet (indexMap st2) item0.uuid =
        some (overviewFromItem
          ((Item.updateTimestamps now item0).updateOverviewFromContent
            content)) ∧
      (∀ k2, k2 ≠ "index" → k2 ≠ "content/" ++ item0.uuid →
        alistGet st2.itemStore k2 = alistGet st.itemStore k2) ∧
      indexWF st2 = true ∧
      st2.agent = st.agent ∧ st2.failingKeys = st.failingKeys := by
  obtain ⟨entries, heq, hdk, hpt⟩ :=
    updateIndex_ok st
      [(Item.updateTimestamps now item0).updateOverviewFromContent content]
      kid hkid hwf hfi
  have hkf :
      keyForItem st.agent (Item.updateTimestamps now item0) =
        Except.ok kid := hkid
  have hfc2 :
      ("content/" ++
          ((Item.updateTimestamps now item0).updateOverviewFromContent
            content).uuid) ∉ st.failingKeys := hfc
  refine
    ⟨{ st with
        itemStore :=
          alistSet
            (alistSet st.itemStore "index"
              (DBValue.str
                { keyId := kid, plain := Plaintext.indexDoc entries }))
            ("content/" ++ item0.uuid)
            (DBValue.obj
              { data :=
                  { keyId := kid,
                    plain := Plaintext.contentDoc content } }) },
      ?_, ?_, ?_, ?_, ?_, ?_, ?_⟩
  · simp only [saveItem]
    rw [hkf, heq]
    simp [hfc, hfc2, Item.updateTimestamps, Item.updateOverviewFromContent]
  · exact alistGet_alistSet_self _ _ _
  · have hlast :
        lastWithUuid
          [(Item.updateTimestamps now item0).updateOverviewFromContent
            content] item0.uuid =
          some ((Item.updateTimestamps now item0).updateOverviewFromContent
            content) := by
      simp [lastWithUuid, Item.updateTimestamps, Item.updateOverviewFromContent]
    have hc := hpt item0.uuid
    rw [hlast] at hc
    have hidx :
        alistGet
          (alistSet
            (alistSet st.itemStore "index"
              (DBValue.str
                { keyId := kid, plain := Plaintext.indexDoc entries }))
            ("content/" ++ item0.uuid)
            (DBValue.obj
              { data :=
                  { keyId := kid, plain := Plaintext.contentDoc content } }))
          "index" =
          some (DBValue.str
            { keyId := kid, plain := Plaintext.indexDoc entries }) := by
      rw [alistGet_alistSet_ne _ _ "index" _
        (Ne.symm (contentKey_ne_index item0.uuid))]
      exact alistGet_alistSet_self _ _ _
    unfold indexMap
    rw [hidx]
    exact hc
  · intro k2 h2i h2c
    rw [alistGet_alistSet_ne _ _ k2 _ h2c, alistGet_alistSet_ne _ _ k2 _ h2i]
  · unfold indexWF
    have hidx :
        alistGet
          (alistSet
            (alistSet st.itemStore "index"
              (DBValue.str
                { keyId := kid, plain := Plaintext.indexDoc entries }))
            ("content/" ++ item0.uuid)
            (DBValue.obj
              { data :=
                  { keyId := kid, plain := Plaintext.contentDoc content } }))
          "index" =
          some (DBValue.str
            { keyId := kid, plain := Plaintext.indexDoc entries }) := by
      rw [alistGet_alistSet_ne _ _ "index" _
        (Ne.symm (contentKey_ne_index item0.uuid))]
      exact alistGet_alistSet_self _ _ _
    rw [hidx]
    exact hdk
  · rfl
  · rfl

/-! Concrete sample data used to instantiate the theorems. -/

/-- Sample open contents. -/
def sampleOpen : ItemOpenContents := { tags := ["personal"], faveIndex := 0 }

/-- A sample regular (non-tombstoned) item. -/
def sampleItem : Item :=
  { uuid := "u1"
    title := "Bank"
    updatedAt := 5
    createdAt := 1
    trashed := false
    typeName := "login"
    openContents := sampleOpen
    locations := ["https://bank.example"]
    account := "jim" }

/-- A sample tombstoned overview entry. -/
def sampleTombOverview : ItemOverview :=
  { title := "Old"
    updatedAt := 2
    createdAt := 1
    trashed := true
    typeName := "login"
    openContents := sampleOpen
    locations := []
    account := "a" }

/-- A key agent holding one key. -/
def sampleAgent : KeyAgent := { keys := [("k1", "km")] }

/-- Sample item content. -/
def sampleContent : ItemContent :=
  { urls := ["https://bank.example"]
    account := "jim"
    notes := "a note"
    formFields := [] }

/-- An unlocked store with an empty database. -/
def emptyStore : StoreState :=
  { itemStore := [], keyStore := [], agent := sampleAgent, failingKeys := [] }

/-- The sample index document: one regular entry, one tombstone. -/
def sampleEntries : List (String × ItemOverview) :=
  [("u1", overviewFromItem sampleItem), ("u2", sampleTombOverview)]

/-- An unlocked store whose database holds the sample index. -/
def indexedStore : StoreState :=
  { itemStore :=
      [("index",
        DBValue.str { keyId := "k1", plain := Plaintext.indexDoc sampleEntries })]
    keyStore := []
    agent := sampleAgent
    failingKeys := [] }

/-- A locked store: the key agent holds no keys. -/
def lockedStore : StoreState :=
  { itemStore := [], keyStore := [], agent := { keys := [] }, failingKeys := [] }

/-! The claims. -/

/-- C1: for every batch passed to `updateIndex`, the new index is computed
by listing all existing items with tombstones included, overlaying the
batch per uuid with last-writer-wins, projecting every resulting item to
its overview, and storing the whole serialized map encrypted under the
active key in one whole-document write to the fixed key `index`; no other
database entry changes. -/
theorem C1_updateIndex_whole_document (st : StoreState) (batch : List Item)
    (kid : String) (hkid : overviewKey st.agent = Except.ok kid)
    (hwf : indexWF st = true) (hfail : "index" ∉ st.failingKeys) :
    ∃ entries : List (String × ItemOverview),
      updateIndex st batch =
        { state :=
            { st with
              itemStore :=
                alistSet st.itemStore "index"
                  (DBValue.str
                    { keyId := kid, plain := Plaintext.indexDoc entries }) }
          result := Except.ok ()
          events := [] } ∧
      (∀ u, alistGet entries u =
        match lastWithUuid batch u with
        | some it => some (overviewFromItem it)
        | none => alistGet (indexMap st) u) ∧
      (∀ k2, k2 ≠ "index" →
        alistGet ((updateIndex st batch).state.itemStore) k2 =
          alistGet st.itemStore k2) := by
  obtain ⟨entries, heq, hdk, hpt⟩ := updateIndex_ok st batch kid hkid hwf hfail
  refine ⟨entries, heq, hpt, ?_⟩
  intro k2 h2
  rw [heq]
  exact alistGet_alistSet_ne _ _ k2 _ h2

/-- Witness for C1 at a concrete store and batch. -/
theorem C1_updateIndex_whole_document_witness :
    (overviewKey indexedStore.agent = Except.ok "k1") ∧
    (indexWF indexedStore = true) ∧
    ("index" ∉ indexedStore.failingKeys) ∧
    (∃ entries : List (String × ItemOverview),
      updateIndex indexedStore [sampleItem] =
        { state :=
            { indexedStore with
              itemStore :=
                alistSet indexedStore.itemStore "index"
                  (DBValue.str
                    { keyId := "k1", plain := Plaintext.indexDoc entries }) }
          result := Except.ok ()
          events := [] } ∧
      (∀ u, alistGet entries u =
        match lastWithUuid [sampleItem] u with
        | some it => some (overviewFromItem it)
        | none => alistGet (indexMap indexedStore) u) ∧
      (∀ k2, k2 ≠ "index" →
        alistGet ((updateIndex indexedStore [sampleItem]).state.itemStore) k2 =
          alistGet indexedStore.itemStore k2)) :=
  ⟨rfl, by decide, by decide,
    C1_updateIndex_whole_document indexedStore [sampleItem] "k1" rfl
      (by decide) (by decide)⟩

/-- C3: `listItems` with `includeTombstones` false never returns an item
whose `trashed` flag is true, and with `includeTombstones` true it
returns every indexed item, tombstoned ones included. -/
theorem C3_tombstone_filtering (st : StoreState) (kid : String)
    (hkid : overviewKey st.agent = Except.ok kid)
    (hwf : indexWF st = true) :
    (∀ st2 : StoreState, ∀ items,
        listItems st2 { includeTombstones := false } = Except.ok items →
        ∀ it ∈ items, it.trashed = false) ∧
    listItems st { includeTombstones := true } =
      Except.ok ((indexMap st).map fun p => itemFromOverview p.1 p.2) := by
  constructor
  · intro st2 items h it hmem
    obtain ⟨m, rfl⟩ := listItems_ok_inv st2 _ items h
    exact mem_buildItems_false hmem
  · rw [listItems_ok st _ kid hkid hwf, buildItems_true]

/-- Witness for C3 at a concrete store holding a tombstone. -/
theorem C3_tombstone_filtering_witness :
    (overviewKey indexedStore.agent = Except.ok "k1") ∧
    (indexWF indexedStore = true) ∧
    ((∀ st2 : StoreState, ∀ items,
        listItems st2 { includeTombstones := false } = Except.ok items →
        ∀ it ∈ items, it.trashed = false) ∧
      listItems indexedStore { includeTombstones := true } =
        Except.ok
          ((indexMap indexedStore).map fun p => itemFromOverview p.1 p.2)) :=
  ⟨rfl, by decide, C3_tombstone_filtering indexedStore "k1" rfl (by decide)⟩

/-- C6: `getContent` rejects with `NotFound` when no entry exists under
`content/{uuid}`, and decrypts and deserializes the stored content when
the entry exists. -/
theorem C6_getContent_notFound (st : StoreState) (it : Item)
    (kid : String) (hkid : overviewKey st.agent = Except.ok kid) :
    (alistGet st.itemStore ("content/" ++ it.uuid) = none →
      getContent st it = Except.error StoreError.notFound) ∧
    (∀ (c : ItemContent) (k2 : String),
      alistGet st.itemStore ("content/" ++ it.uuid) =
        some (DBValue.obj
          { data := { keyId := k2, plain := Plaintext.contentDoc c } }) →
      getContent st it = Except.ok c) := by
  have hkf : keyForItem st.agent it = Except.ok kid := hkid
  constructor
  · intro h
    unfold getContent
    rw [hkf, h]
  · intro c k2 h
    unfold getContent
    rw [hkf, h]

/-- Witness for C6 at a concrete store with no content entry. -/
theorem C6_getContent_notFound_witness :
    (overviewKey emptyStore.agent = Except.ok "k1") ∧
    (alistGet emptyStore.itemStore ("content/" ++ sampleItem.uuid) = none) ∧
    getContent emptyStore sampleItem = Except.error StoreError.notFound :=
  ⟨rfl, rfl,
    (C6_getContent_notFound emptyStore sampleItem "k1" rfl).1 rfl⟩

/-- C7: when the database holds no entry under the key `index`,
`listItems` resolves to the empty item list rather than rejecting, for
every `includeTombstones` option. -/
theorem C7_absent_index_empty (st : StoreState) (opts : ListItemsOptions)
    (kid : String) (hkid : overviewKey st.agent = Except.ok kid)
    (hnone : alistGet st.itemStore "index" = none) :
    listItems st opts = Except.ok [] := by
  unfold listItems
  rw [hkid, hnone]
  rfl

/-- Witness for C7 on the empty store, both option values. -/
theorem C7_absent_index_empty_witness :
    (overviewKey emptyStore.agent = Except.ok "k1") ∧
    (alistGet emptyStore.itemStore "index" = none) ∧
    listItems emptyStore { includeTombstones := false } = Except.ok [] ∧
    listItems emptyStore { includeTombstones := true } = Except.ok [] :=
  ⟨rfl, rfl,
    C7_absent_index_empty emptyStore { includeTombstones := false } "k1" rfl rfl,
    C7_absent_index_empty emptyStore { includeTombstones := true } "k1" rfl rfl⟩

/-- C10: `loadItem` rejects with `No such item` for every uuid whose
index entry is a tombstone, even though the item is indexed, because it
searches the tombstone-excluding `listItems` view; it resolves with the
matching item exactly when a non-tombstoned entry with that uuid
exists. -/
theorem C10_loadItem_tombstone (st : StoreState) (u : String) (kid : String)
    (hkid : overviewKey st.agent = Except.ok kid)
    (hwf : indexWF st = true) :
    (∀ ov, alistGet (indexMap st) u = some ov → ov.trashed = true →
      loadItem st u = Except.error (StoreError.noSuchItem u)) ∧
    (∀ ov, alistGet (indexMap st) u = some ov → ov.trashed = false →
      loadItem st u = Except.ok (itemFromOverview u ov)) ∧
    (alistGet (indexMap st) u = none →
      loadItem st u = Except.error (StoreError.noSuchItem u)) := by
  have hli := listItems_ok st {} kid hkid hwf
  have hfu := filter_uuid_buildItems (indexMap st) u (indexMap_distinct st hwf)
  refine ⟨?_, ?_, ?_⟩
  · intro ov hov htr
    have hfu2 : (buildItems (indexMap st) { includeTombstones := false }).filter
        (fun j => j.uuid = u) = [] := by
      rw [hfu, hov]
      simp [htr]
    simp only [loadItem, hli, hfu2]
  · intro ov hov htr
    have hfu2 : (buildItems (indexMap st) { includeTombstones := false }).filter
        (fun j => j.uuid = u) = [itemFromOverview u ov] := by
      rw [hfu, hov]
      simp [htr]
    simp only [loadItem, hli, hfu2]
  · intro hov
    have hfu2 : (buildItems (indexMap st) { includeTombstones := false }).filter
        (fun j => j.uuid = u) = [] := by
      rw [hfu, hov]
    simp only [loadItem, hli, hfu2]

/-- Witness for C10 on the sample store: the tombstoned uuid rejects,
the regular uuid resolves. -/
theorem C10_loadItem_tombstone_witness :
    (overviewKey indexedStore.agent = Except.ok "k1") ∧
    (indexWF indexedStore = true) ∧
    (alistGet (indexMap indexedStore) "u2" = some sampleTombOverview) ∧
    (sampleTombOverview.trashed = true) ∧
    loadItem indexedStore "u2" =
      Except.error (StoreError.noSuchItem "u2") :=
  ⟨rfl, by decide, by decide, rfl,
    (C10_loadItem_tombstone indexedStore "u2" "k1" rfl (by decide)).1
      sampleTombOverview (by decide) rfl⟩

/-- C4: `unlock` rejects with `NoKeys` when no keys are persisted; when
keys exist and decryption succeeds it adds every decrypted key to the key
agent and publishes `onUnlock` exactly once, with the final agent holding
all the added keys; when decryption fails it rejects with the
`InvalidPassword` derivation error and leaves the agent unchanged. -/
theorem C4_unlock_behavior (st : StoreState) (pwd : String) :
    (storeListKeys st.keyStore = [] →
      unlock st pwd =
        { state := st, result := Except.error StoreError.noKeys
          events := [] }) ∧
    (∀ dks, storeListKeys st.keyStore ≠ [] →
      decryptKeys (storeListKeys st.keyStore) pwd = Except.ok dks →
      unlock st pwd =
        { state :=
            { st with
              agent :=
                { keys :=
                    st.agent.keys ++ dks.map fun dk => (dk.id, dk.key) } }
          result := Except.ok ()
          events := [StoreEvent.unlocked] }) ∧
    (storeListKeys st.keyStore ≠ [] →
      decryptKeys (storeListKeys st.keyStore) pwd =
        Except.error StoreError.invalidPassword →
      unlock st pwd =
        { state := st, result := Except.error StoreError.invalidPassword
          events := [] }) := by
  refine ⟨?_, ?_, ?_⟩
  · intro h
    simp only [unlock, h, List.isEmpty_nil, if_true]
  · intro dks hne hdec
    have hie : (storeListKeys st.keyStore).isEmpty = false := by
      cases hk : storeListKeys st.keyStore
      · exact absurd hk hne
      · rfl
    simp only [unlock, hie, Bool.false_eq_true, if_false, hdec, foldl_addKey]
  · intro hne hdec
    have hie : (storeListKeys st.keyStore).isEmpty = false := by
      cases hk : storeListKeys st.keyStore
      · exact absurd hk hne
      · rfl
    simp only [unlock, hie, Bool.false_eq_true, if_false, hdec]

/-- A sample persisted key sealed under the password hunter2. -/
def sampleKey : Key :=
  { identifier := "k1", password := "hunter2", material := "km" }

/-- A locked store whose keystore holds one persisted key and a hint. -/
def keyedStore : StoreState :=
  { itemStore := []
    keyStore :=
      [("key/k1", KeyStoreValue.key sampleKey),
       ("hint", KeyStoreValue.hintVal "first pet")]
    agent := { keys := [] }
    failingKeys := [] }

/-- Witness for C4: empty keystore rejects with NoKeys; the keyed store
unlocks with the right password and rejects the wrong one. -/
theorem C4_unlock_behavior_witness :
    (storeListKeys lockedStore.keyStore = []) ∧
    unlock lockedStore "x" =
      { state := lockedStore, result := Except.error StoreError.noKeys
        events := [] } ∧
    (storeListKeys keyedStore.keyStore ≠ []) ∧
    (decryptKeys (storeListKeys keyedStore.keyStore) "hunter2" =
      Except.ok [{ id := "k1", key := "km" }]) ∧
    unlock keyedStore "hunter2" =
      { state :=
          { keyedStore with
            agent :=
              { keys :=
                  keyedStore.agent.keys ++
                    ([{ id := "k1", key := "km" }] : List DecryptedKey).map
                      fun dk => (dk.id, dk.key) } }
        result := Except.ok ()
        events := [StoreEvent.unlocked] } ∧
    (decryptKeys (storeListKeys keyedStore.keyStore) "wrong" =
      Except.error StoreError.invalidPassword) ∧
    unlock keyedStore "wrong" =
      { state := keyedStore, result := Except.error StoreError.invalidPassword
        events := [] } :=
  ⟨rfl,
    (C4_unlock_behavior lockedStore "x").1 rfl,
    by decide,
    rfl,
    (C4_unlock_behavior keyedStore "hunter2").2.1
      [{ id := "k1", key := "km" }] (by decide) rfl,
    rfl,
    (C4_unlock_behavior keyedStore "wrong").2.2 (by decide) rfl⟩

/-- C5: every key-dependent operation (`listItems`, `saveItem`,
`getContent`, and the index flush `updateIndex`) fails with the `Locked`
error when the key agent lists no keys; when at least one key is listed,
the active key used for the overview and content writes is the first key
id the agent returns. -/
theorem C5_locked_or_first_key (st : StoreState) :
    (st.agent.keys = [] →
      (∀ opts, listItems st opts = Except.error StoreError.locked) ∧
      (∀ it c now, saveItem st it c now =
        { state := st, result := Except.error StoreError.locked
          events := [] }) ∧
      (∀ it, getContent st it = Except.error StoreError.locked) ∧
      (∀ batch, updateIndex st batch =
        { state := st, result := Except.error StoreError.locked
          events := [] })) ∧
    (∀ kid mat rest, st.agent.keys = (kid, mat) :: rest →
      overviewKey st.agent = Except.ok kid ∧
      (indexWF st = true → "index" ∉ st.failingKeys →
        ∀ batch, ∃ entries,
          alistGet ((updateIndex st batch).state.itemStore) "index" =
            some (DBValue.str
              { keyId := kid, plain := Plaintext.indexDoc entries })) ∧
      (∀ it c now, indexWF st = true → "index" ∉ st.failingKeys →
        ("content/" ++ it.uuid) ∉ st.failingKeys →
        alistGet ((saveItem st it c now).state.itemStore)
            ("content/" ++ it.uuid) =
          some (DBValue.obj
            { data := { keyId := kid, plain := Plaintext.contentDoc c } }))) := by
  constructor
  · intro h
    have hov : overviewKey st.agent = Except.error StoreError.locked := by
      unfold overviewKey KeyAgent.listKeys
      rw [h]
      rfl
    have hli : ∀ opts, listItems st opts = Except.error StoreError.locked := by
      intro opts
      unfold listItems
      rw [hov]
    refine ⟨hli, ?_, ?_, ?_⟩
    · intro it c now
      have hkf :
          keyForItem st.agent (Item.updateTimestamps now it) =
            Except.error StoreError.locked := hov
      simp only [saveItem]
      rw [hkf]
    · intro it
      have hkf :
          keyForItem st.agent it = Except.error StoreError.locked := hov
      unfold getContent
      rw [hkf]
    · intro batch
      unfold updateIndex
      rw [hli { includeTombstones := true }]
  · intro kid mat rest h
    have hov : overviewKey st.agent = Except.ok kid := by
      unfold overviewKey KeyAgent.listKeys
      rw [h]
      rfl
    refine ⟨hov, ?_, ?_⟩
    · intro hwf hfi batch
      obtain ⟨entries, heq, hdk, hpt⟩ :=
        updateIndex_ok st batch kid hov hwf hfi
      refine ⟨entries, ?_⟩
      rw [heq]
      exact alistGet_alistSet_self _ _ _
    · intro it c now hwf hfi hfc
      obtain ⟨st2, heq, hget, _, _, _, _, _⟩ :=
        saveItem_ok st it c now kid hov hwf hfi hfc
      rw [heq]
      exact hget

/-- Witness for C5: the locked store rejects a listing with Locked; the
unlocked sample store reports k1 as the active key. -/
theorem C5_locked_or_first_key_witness :
    (lockedStore.agent.keys = []) ∧
    listItems lockedStore { includeTombstones := false } =
      Except.error StoreError.locked ∧
    (indexedStore.agent.keys = ("k1", "km") :: []) ∧
    overviewKey indexedStore.agent = Except.ok "k1" :=
  ⟨rfl,
    ((C5_locked_or_first_key lockedStore).1 rfl).1
      { includeTombstones := false },
    rfl,
    ((C5_locked_or_first_key indexedStore).2 "k1" "km" [] rfl).1⟩

theorem saveItem_content_fail (st : StoreState) (item0 : Item)
    (content : ItemContent) (now : Int) (kid : String)
    (hkid : overviewKey st.agent = Except.ok kid)
    (hwf : indexWF st = true)
    (hfi : "index" ∉ st.failingKeys)
    (hfc : ("content/" ++ item0.uuid) ∈ st.failingKeys) :
    ∃ entries,
      saveItem st item0 content now =
        { state :=
            { st with
              itemStore :=
                alistSet st.itemStore "index"
                  (DBValue.str
                    { keyId := kid, plain := Plaintext.indexDoc entries }) }
          result := Except.error StoreError.storageFailure
          events := [] } ∧
      alistGet entries item0.uuid =
        some (overviewFromItem
          ((Item.updateTimestamps now item0).updateOverviewFromContent
            content)) := by
  obtain ⟨entries, heq, hdk, hpt⟩ :=
    updateIndex_ok st
      [(Item.updateTimestamps now item0).updateOverviewFromContent content]
      kid hkid hwf hfi
  have hkf :
      keyForItem st.agent (Item.updateTimestamps now item0) =
        Except.ok kid := hkid
  have hfc2 :
      ("content/" ++
          ((Item.updateTimestamps now item0).updateOverviewFromContent
            content).uuid) ∈ st.failingKeys := hfc
  refine ⟨entries, ?_, ?_⟩
  · simp only [saveItem]
    rw [hkf, heq]
    simp [hfc2]
  · have hlast :
        lastWithUuid
          [(Item.updateTimestamps now item0).updateOverviewFromContent
            content] item0.uuid =
          some ((Item.updateTimestamps now item0).updateOverviewFromContent
            content) := by
      simp [lastWithUuid, Item.updateTimestamps, Item.updateOverviewFromContent]
    have hc := hpt item0.uuid
    rw [hlast] at hc
    exact hc

theorem saveItem_index_fail (st : StoreState) (item0 : Item)
    (content : ItemContent) (now : Int) (kid : String)
    (hkid : overviewKey st.agent = Except.ok kid)
    (hwf : indexWF st = true)
    (hfi : "index" ∈ st.failingKeys)
    (hfc : ("content/" ++ item0.uuid) ∉ st.failingKeys) :
    saveItem st item0 content now =
      { state :=
          { st with
            itemStore :=
              alistSet st.itemStore ("content/" ++ item0.uuid)
                (DBValue.obj
                  { data :=
                      { keyId := kid, plain := Plaintext.contentDoc content } }) }
        result := Except.error StoreError.storageFailure
        events := [] } := by
  have hui :=
    updateIndex_fail st
      [(Item.updateTimestamps now item0).updateOverviewFromContent content]
      kid hkid hwf hfi
  have hkf :
      keyForItem st.agent (Item.updateTimestamps now item0) =
        Except.ok kid := hkid
  have hfc2 :
      ("content/" ++
          ((Item.updateTimestamps now item0).updateOverviewFromContent
            content).uuid) ∉ st.failingKeys := hfc
  simp only [saveItem]
  rw [hkf, hui]
  simp [hfc, hfc2, Item.updateTimestamps, Item.updateOverviewFromContent]

theorem saveItem_both_fail (st : StoreState) (item0 : Item)
    (content : ItemContent) (now : Int) (kid : String)
    (hkid : overviewKey st.agent = Except.ok kid)
    (hwf : indexWF st = true)
    (hfi : "index" ∈ st.failingKeys)
    (hfc : ("content/" ++ item0.uuid) ∈ st.failingKeys) :
    saveItem st item0 content now =
      { state := st, result := Except.error StoreError.storageFailure
        events := [] } := by
  have hui :=
    updateIndex_fail st
      [(Item.updateTimestamps now item0).updateOverviewFromContent content]
      kid hkid hwf hfi
  have hkf :
      keyForItem st.agent (Item.updateTimestamps now item0) =
        Except.ok kid := hkid
  have hfc2 :
      ("content/" ++
          ((Item.updateTimestamps now item0).updateOverviewFromContent
            content).uuid) ∈ st.failingKeys := hfc
  simp only [saveItem]
  rw [hkf, hui]
  simp [hfc2]

/-- C2: `saveItem` stamps the update timestamp, writes the encrypted
content under `content/{uuid}` and flushes the item through the index
queue; it resolves and publishes `onItemUpdated` exactly when both writes
completed (never after a failed save), and when either write fails the
whole operation fails while the other write persists, with no
rollback. -/
theorem C2_saveItem_dual_writes (st : StoreState) (item0 : Item)
    (content : ItemContent) (now : Int) (kid : String)
    (hkid : overviewKey st.agent = Except.ok kid)
    (hwf : indexWF st = true) :
    ("index" ∉ st.failingKeys → ("content/" ++ item0.uuid) ∉ st.failingKeys →
      ∃ st2,
        saveItem st item0 content now =
          { state := st2, result := Except.ok ()
            events := [StoreEvent.itemUpdated
              ((Item.updateTimestamps now item0).updateOverviewFromContent
                content)] } ∧
        ((Item.updateTimestamps now item0).updateOverviewFromContent
            content).updatedAt = now ∧
        alistGet st2.itemStore ("content/" ++ item0.uuid) =
          some (DBValue.obj
            { data :=
                { keyId := kid, plain := Plaintext.contentDoc content } }) ∧
        alistGet (indexMap st2) item0.uuid =
          some (overviewFromItem
            ((Item.updateTimestamps now item0).updateOverviewFromContent
              content))) ∧
    ((saveItem st item0 content now).events ≠ [] →
      (saveItem st item0 content now).result = Except.ok ()) ∧
    ("index" ∉ st.failingKeys → ("content/" ++ item0.uuid) ∈ st.failingKeys →
      (saveItem st item0 content now).result =
          Except.error StoreError.storageFailure ∧
      (saveItem st item0 content now).events = [] ∧
      alistGet (indexMap (saveItem st item0 content now).state) item0.uuid =
        some (overviewFromItem
          ((Item.updateTimestamps now item0).updateOverviewFromContent
            content)) ∧
      alistGet (saveItem st item0 content now).state.itemStore
          ("content/" ++ item0.uuid) =
        alistGet st.itemStore ("content/" ++ item0.uuid)) ∧
    ("index" ∈ st.failingKeys → ("content/" ++ item0.uuid) ∉ st.failingKeys →
      (saveItem st item0 content now).result =
          Except.error StoreError.storageFailure ∧
      (saveItem st item0 content now).events = [] ∧
      alistGet (saveItem st item0 content now).state.itemStore
          ("content/" ++ item0.uuid) =
        some (DBValue.obj
          { data := { keyId := kid, plain := Plaintext.contentDoc content } }) ∧
      alistGet (saveItem st item0 content now).state.itemStore "index" =
        alistGet st.itemStore "index") := by
  refine ⟨?_, ?_, ?_, ?_⟩
  · intro hfi hfc
    obtain ⟨st2, heq, hget, hidx, _, _, _, _⟩ :=
      saveItem_ok st item0 content now kid hkid hwf hfi hfc
    exact ⟨st2, heq, rfl, hget, hidx⟩
  · intro hne
    by_cases hfi : "index" ∈ st.failingKeys
    · by_cases hfc : ("content/" ++ item0.uuid) ∈ st.failingKeys
      · rw [saveItem_both_fail st item0 content now kid hkid hwf hfi hfc] at hne
        exact absurd rfl hne
      · rw [saveItem_index_fail st item0 content now kid hkid hwf hfi hfc] at hne
        exact absurd rfl hne
    · by_cases hfc : ("content/" ++ item0.uuid) ∈ st.failingKeys
      · obtain ⟨entries, heq, _⟩ :=
          saveItem_content_fail st item0 content now kid hkid hwf hfi hfc
        rw [heq] at hne
        exact absurd rfl hne
      · obtain ⟨st2, heq, _, _, _, _, _, _⟩ :=
          saveItem_ok st item0 content now kid hkid hwf hfi hfc
        rw [heq]
  · intro hfi hfc
    obtain ⟨entries, heq, hidx⟩ :=
      saveItem_content_fail st item0 content now kid hkid hwf hfi hfc
    rw [heq]
    refine ⟨rfl, rfl, ?_,
      alistGet_alistSet_ne _ _ _ _ (contentKey_ne_index item0.uuid)⟩
    have hg :
        alistGet
          (alistSet st.itemStore "index"
            (DBValue.str
              { keyId := kid, plain := Plaintext.indexDoc entries }))
          "index" =
          some (DBValue.str
            { keyId := kid, plain := Plaintext.indexDoc entries }) :=
      alistGet_alistSet_self _ _ _
    show alistGet (indexMap
      { st with
        itemStore :=
          alistSet st.itemStore "index"
            (DBValue.str
              { keyId := kid, plain := Plaintext.indexDoc entries }) })
        item0.uuid = _
    unfold indexMap
    rw [hg]
    exact hidx
  · intro hfi hfc
    rw [saveItem_index_fail st item0 content now kid hkid hwf hfi hfc]
    refine ⟨rfl, rfl, alistGet_alistSet_self _ _ _, ?_⟩
    exact alistGet_alistSet_ne _ _ "index" _
      (Ne.symm (contentKey_ne_index item0.uuid))

/-- A store where the write to the sample content key fails. -/
def contentFailStore : StoreState :=
  { itemStore := [], keyStore := [], agent := sampleAgent
    failingKeys := ["content/u1"] }

/-- Witness for C2 on the empty store (success path) and a store whose
content write fails (failure path). -/
theorem C2_saveItem_dual_writes_witness :
    (overviewKey emptyStore.agent = Except.ok "k1") ∧
    (indexWF emptyStore = true) ∧
    ("index" ∉ emptyStore.failingKeys) ∧
    ("content/" ++ sampleItem.uuid ∉ emptyStore.failingKeys) ∧
    (∃ st2,
      saveItem emptyStore sampleItem sampleContent 7 =
        { state := st2, result := Except.ok ()
          events := [StoreEvent.itemUpdated
            ((Item.updateTimestamps 7 sampleItem).updateOverviewFromContent
              sampleContent)] } ∧
      ((Item.updateTimestamps 7 sampleItem).updateOverviewFromContent
          sampleContent).updatedAt = 7 ∧
      alistGet st2.itemStore ("content/" ++ sampleItem.uuid) =
        some (DBValue.obj
          { data :=
              { keyId := "k1"
                plain := Plaintext.contentDoc sampleContent } }) ∧
      alistGet (indexMap st2) sampleItem.uuid =
        some (overviewFromItem
          ((Item.updateTimestamps 7 sampleItem).updateOverviewFromContent
            sampleContent))) ∧
    ("content/" ++ sampleItem.uuid ∈ contentFailStore.failingKeys) ∧
    ((saveItem contentFailStore sampleItem sampleContent 7).result =
      Except.error StoreError.storageFailure) :=
  ⟨rfl, by decide, by decide, by decide,
    (C2_saveItem_dual_writes emptyStore sampleItem sampleContent 7 "k1" rfl
      (by decide)).1 (by decide) (by decide),
    by decide,
    ((C2_saveItem_dual_writes contentFailStore sampleItem sampleContent 7 "k1"
      rfl (by decide)).2.2.1 (by decide) (by decide)).1⟩

/-- C8: with the crypto collaborator transparent, `saveItem` followed by
`getContent` yields content equal to what was saved: the serialize and
encrypt path of `saveItem` and the decrypt and deserialize path of
`getContent` form a round trip. -/
theorem C8_save_get_roundtrip (st : StoreState) (item0 : Item)
    (content : ItemContent) (now : Int) (kid : String)
    (hkid : overviewKey st.agent = Except.ok kid)
    (hwf : indexWF st = true)
    (hfi : "index" ∉ st.failingKeys)
    (hfc : ("content/" ++ item0.uuid) ∉ st.failingKeys) :
    (saveItem st item0 content now).result = Except.ok () ∧
    getContent (saveItem st item0 content now).state item0 =
      Except.ok content := by
  obtain ⟨st2, heq, hget, _, _, _, hagent, _⟩ :=
    saveItem_ok st item0 content now kid hkid hwf hfi hfc
  rw [heq]
  refine ⟨rfl, ?_⟩
  show getContent st2 item0 = Except.ok content
  have hkf : keyForItem st2.agent item0 = Except.ok kid := by
    show overviewKey st2.agent = Except.ok kid
    rw [hagent]
    exact hkid
  unfold getContent
  rw [hkf, hget]

/-- Witness for C8 on the empty store at the sample item. -/
theorem C8_save_get_roundtrip_witness :
    (overviewKey emptyStore.agent = Except.ok "k1") ∧
    (indexWF emptyStore = true) ∧
    ("index" ∉ emptyStore.failingKeys) ∧
    ("content/" ++ sampleItem.uuid ∉ emptyStore.failingKeys) ∧
    ((saveItem emptyStore sampleItem sampleContent 7).result =
      Except.ok ()) ∧
    getContent (saveItem emptyStore sampleItem sampleContent 7).state
        sampleItem =
      Except.ok sampleContent :=
  ⟨rfl, by decide, by decide, by decide,
    (C8_save_get_roundtrip emptyStore sampleItem sampleContent 7 "k1" rfl
      (by decide) (by decide) (by decide)).1,
    (C8_save_get_roundtrip emptyStore sampleItem sampleContent 7 "k1" rfl
      (by decide) (by decide) (by decide)).2⟩

/-- An item handed to the queue is accounted for: still pending, in the
batch being flushed, or already projected into the stored index. -/
def placed (q : QueueState) (it : Item) : Prop :=
  it ∈ q.pending ∨ (∃ b, q.running = some b ∧ it ∈ b) ∨
    alistGet (indexMap q.store) it.uuid = some (overviewFromItem it)

theorem nodup_append_singleton {α : Type} {l : List α} {a : α}
    (h : l.Nodup) (ha : a ∉ l) : (l ++ [a]).Nodup := by
  rw [List.nodup_append]
  refine ⟨h, List.nodup_singleton a, ?_⟩
  intro x hx hmem
  simp at hmem
  exact ha (hmem ▸ hx)

theorem updateIndex_state_inv (st : StoreState) (batch : List Item)
    (kid : String) (hkid : overviewKey st.agent = Except.ok kid)
    (hwf : indexWF st = true) (hfail : "index" ∉ st.failingKeys) :
    ((updateIndex st batch).state.agent = st.agent ∧
      (updateIndex st batch).state.failingKeys = st.failingKeys ∧
      indexWF (updateIndex st batch).state = true) ∧
    (∀ u, alistGet (indexMap (updateIndex st batch).state) u =
      match lastWithUuid batch u with
      | some it => some (overviewFromItem it)
      | none => alistGet (indexMap st) u) := by
  obtain ⟨entries, heq, hdk, hpt⟩ := updateIndex_ok st batch kid hkid hwf hfail
  have hg : alistGet ((updateIndex st batch).state.itemStore) "index" =
      some (DBValue.str
        { keyId := kid, plain := Plaintext.indexDoc entries }) := by
    rw [heq]
    exact alistGet_alistSet_self _ _ _
  have him : indexMap (updateIndex st batch).state = entries := by
    unfold indexMap
    rw [hg]
  refine ⟨⟨?_, ?_, ?_⟩, ?_⟩
  · rw [heq]
  · rw [heq]
  · unfold indexWF
    rw [hg]
    exact hdk
  · intro u
    rw [him]
    exact hpt u

theorem runTrace_tracking (st0 : StoreState) (kid : String)
    (hkid : overviewKey st0.agent = Except.ok kid)
    (hfail : "index" ∉ st0.failingKeys) :
    ∀ (tr : List QOp) (q : QueueState) (done : List Item),
      q.store.agent = st0.agent →
      q.store.failingKeys = st0.failingKeys →
      indexWF q.store = true →
      (∀ j ∈ q.pending, j ∈ done) →
      (∀ b, q.running = some b → ∀ j ∈ b, j ∈ done) →
      (∀ j ∈ done, placed q j) →
      (done.map Item.uuid).Nodup →
      ((pushedItems tr).map Item.uuid).Nodup →
      (∀ j ∈ done, ∀ j2 ∈ pushedItems tr, j.uuid ≠ j2.uuid) →
      (runTrace q tr).store.agent = st0.agent ∧
      (runTrace q tr).store.failingKeys = st0.failingKeys ∧
      indexWF (runTrace q tr).store = true ∧
      (∀ j ∈ done ++ pushedItems tr, placed (runTrace q tr) j) := by
  intro tr
  induction tr with
  | nil =>
    intro q done ha hf hw _hp _hr hplace _hnod _hnop _hdisj
    refine ⟨ha, hf, hw, ?_⟩
    intro j hj
    rw [show pushedItems [] = [] from rfl, List.append_nil] at hj
    exact hplace j hj
  | cons op rest ih =>
    intro q done ha hf hw hp hr hplace hnod hnop hdisj
    cases op with
    | push it =>
      have hpush : pushedItems (QOp.push it :: rest) = it :: pushedItems rest :=
        rfl
      rw [hpush] at hnop hdisj
      rw [List.map_cons, List.nodup_cons] at hnop
      have hnotin : it.uuid ∉ done.map Item.uuid := by
        intro hmem
        obtain ⟨j, hj, hje⟩ := List.mem_map.mp hmem
        exact hdisj j hj it (List.mem_cons_self it (pushedItems rest)) hje
      have hnod2 : ((done ++ [it]).map Item.uuid).Nodup := by
        rw [List.map_append]
        exact nodup_append_singleton hnod (by simpa using hnotin)
      have hdisj2 :
          ∀ j ∈ done ++ [it], ∀ j2 ∈ pushedItems rest, j.uuid ≠ j2.uuid := by
        intro j hj j2 hj2
        rcases List.mem_append.mp hj with hjd | hjit
        · exact hdisj j hjd j2 (List.mem_cons_of_mem it hj2)
        · have : j = it := by simpa using hjit
          subst this
          intro he
          exact hnop.1 (he ▸ List.mem_map_of_mem Item.uuid hj2)
      have hlist :
          (done ++ [it]) ++ pushedItems rest =
            done ++ pushedItems (QOp.push it :: rest) := by
        rw [hpush, List.append_assoc]
        rfl
      cases hrun : q.running with
      | none =>
        have hq2 : queueStep q (QOp.push it) =
            { q with pending := [], running := some (q.pending ++ [it]) } := by
          simp [queueStep, hrun]
        have hres := ih (queueStep q (QOp.push it)) (done ++ [it])
          (by rw [hq2]; exact ha) (by rw [hq2]; exact hf) (by rw [hq2]; exact hw)
          (by rw [hq2]; intro j hj; simp at hj)
          (by
            rw [hq2]
            intro b hb j hj
            have hb2 : q.pending ++ [it] = b := by
              simpa using hb
            rw [← hb2] at hj
            rcases List.mem_append.mp hj with hjp | hjit
            · exact List.mem_append.mpr (Or.inl (hp j hjp))
            · exact List.mem_append.mpr (Or.inr hjit))
          (by
            intro j hj
            rcases List.mem_append.mp hj with hjd | hjit
            · rcases hplace j hjd with hjp | ⟨b, hb, _⟩ | hjidx
              · refine Or.inr (Or.inl ?_)
                rw [hq2]
                exact ⟨q.pending ++ [it], rfl, List.mem_append.mpr (Or.inl hjp)⟩
              · rw [hrun] at hb
                cases hb
              · refine Or.inr (Or.inr ?_)
                rw [hq2]
                exact hjidx
            · have hj_eq : j = it := by simpa using hjit
              refine Or.inr (Or.inl ?_)
              rw [hq2]
              exact ⟨q.pending ++ [it], rfl,
                List.mem_append.mpr (Or.inr (by simp [hj_eq]))⟩)
          hnod2 hnop.2 hdisj2
        rw [hlist] at hres
        exact hres
      | some b0 =>
        have hq2 : queueStep q (QOp.push it) =
            { q with pending := q.pending ++ [it] } := by
          simp [queueStep, hrun]
        have hres := ih (queueStep q (QOp.push it)) (done ++ [it])
          (by rw [hq2]; exact ha) (by rw [hq2]; exact hf) (by rw [hq2]; exact hw)
          (by
            rw [hq2]
            intro j hj
            rcases List.mem_append.mp hj with hjp | hjit
            · exact List.mem_append.mpr (Or.inl (hp j hjp))
            · exact List.mem_append.mpr (Or.inr hjit))
          (by
            rw [hq2]
            intro b hb j hj
            exact List.mem_append.mpr (Or.inl (hr b hb j hj)))
          (by
            intro j hj
            rcases List.mem_append.mp hj with hjd | hjit
            · rcases hplace j hjd with hjp | ⟨b, hb, hjb⟩ | hjidx
              · refine Or.inl ?_
                rw [hq2]
                exact List.mem_append.mpr (Or.inl hjp)
              · refine Or.inr (Or.inl ?_)
                rw [hq2]
                exact ⟨b, hb, hjb⟩
              · refine Or.inr (Or.inr ?_)
                rw [hq2]
                exact hjidx
            · have hj_eq : j = it := by simpa using hjit
              refine Or.inl ?_
              rw [hq2]
              exact List.mem_append.mpr (Or.inr (by simp [hj_eq])))
          hnod2 hnop.2 hdisj2
        rw [hlist] at hres
        exact hres
    | complete =>
      have hpush : pushedItems (QOp.complete :: rest) = pushedItems rest := rfl
      rw [hpush] at hnop hdisj
      cases hrun : q.running with
      | none =>
        have hq2 : queueStep q QOp.complete = q := by
          simp [queueStep, hrun]
        have hres := ih (queueStep q QOp.complete) done
          (by rw [hq2]; exact ha) (by rw [hq2]; exact hf) (by rw [hq2]; exact hw)
          (by rw [hq2]; exact hp) (by rw [hq2]; exact hr)
          (by rw [hq2]; exact hplace) hnod hnop hdisj
        rw [show done ++ pushedItems rest =
          done ++ pushedItems (QOp.complete :: rest) from rfl] at hres
        exact hres
      | some b =>
        obtain ⟨⟨ha2, hf2, hw2⟩, hpt⟩ :=
          updateIndex_state_inv q.store b kid (by rw [ha]; exact hkid) hw
            (by rw [hf]; exact hfail)
        have hplace2 : ∀ j ∈ done,
            alistGet (indexMap (updateIndex q.store b).state) j.uuid =
                some (overviewFromItem j) ∨
              (j ∈ q.pending) := by
          intro j hj
          rcases hplace j hj with hjp | ⟨b2, hb2, hjb⟩ | hjidx
          · exact Or.inr hjp
          · rw [hrun] at hb2
            have hb3 : b2 = b := by
              injection hb2 with h3
              exact h3.symm
            rw [hb3] at hjb
            refine Or.inl ?_
            rw [hpt j.uuid]
            cases hlw : lastWithUuid b j.uuid with
            | some j2 =>
              obtain ⟨hm, he⟩ := lastWithUuid_mem hlw
              have : j2 = j :=
                eq_of_mem_nodup_uuid hnod (hr b hrun j2 hm) hj he
              rw [this]
            | none =>
              have := lastWithUuid_isSome_of_mem hjb
              rw [hlw] at this
              simp at this
          · refine Or.inl ?_
            rw [hpt j.uuid]
            cases hlw : lastWithUuid b j.uuid with
            | some j2 =>
              obtain ⟨hm, he⟩ := lastWithUuid_mem hlw
              have : j2 = j :=
                eq_of_mem_nodup_uuid hnod (hr b hrun j2 hm) hj he
              rw [this]
            | none => exact hjidx
        cases hpend : q.pending with
        | nil =>
          have hq2 : queueStep q QOp.complete =
              { q with store := (updateIndex q.store b).state
                       running := none } := by
            simp [queueStep, hrun, hpend]
          have hres := ih (queueStep q QOp.complete) done
            (by rw [hq2]; exact ha2.trans ha)
            (by rw [hq2]; exact hf2.trans hf)
            (by rw [hq2]; exact hw2)
            (by rw [hq2]; exact hp)
            (by rw [hq2]; intro b2 hb2; cases hb2)
            (by
              intro j hj
              rcases hplace2 j hj with hidx | hjp
              · refine Or.inr (Or.inr ?_)
                rw [hq2]
                exact hidx
              · rw [hpend] at hjp
                cases hjp)
            hnod hnop hdisj
          rw [show done ++ pushedItems rest =
            done ++ pushedItems (QOp.complete :: rest) from rfl] at hres
          exact hres
        | cons p ps =>
          have hq2 : queueStep q QOp.complete =
              { q with store := (updateIndex q.store b).state
                       running := some (p :: ps)
                       pending := [] } := by
            simp [queueStep, hrun, hpend]
          have hres := ih (queueStep q QOp.complete) done
            (by rw [hq2]; exact ha2.trans ha)
            (by rw [hq2]; exact hf2.trans hf)
            (by rw [hq2]; exact hw2)
            (by rw [hq2]; intro j hj; simp at hj)
            (by
              rw [hq2]
              intro b2 hb2 j hj
              have hb3 : p :: ps = b2 := by
                simpa using hb2
              rw [← hb3] at hj
              exact hp j (hpend ▸ hj))
            (by
              intro j hj
              rcases hplace2 j hj with hidx | hjp
              · refine Or.inr (Or.inr ?_)
                rw [hq2]
                exact hidx
              · refine Or.inr (Or.inl ?_)
                rw [hq2]
                refine ⟨p :: ps, rfl, ?_⟩
                rw [← hpend]
                exact hjp)
            hnod hnop hdisj
          rw [show done ++ pushedItems rest =
            done ++ pushedItems (QOp.complete :: rest) from rfl] at hres
          exact hres

/-- C9: for every run of the batched update queue in which items with
pairwise-distinct uuids are pushed concurrently — any interleaving of
pushes and flush completions that ends quiescent — the final index holds
exactly one overview for every pushed item: the tombstones-included
listing contains each pushed item exactly once, and the default listing
contains each non-tombstoned pushed item exactly once (no duplicates, no
loss). -/
theorem C9_concurrent_saves_exactly_once (st0 : StoreState) (tr : List QOp)
    (kid : String)
    (hkid : overviewKey st0.agent = Except.ok kid)
    (hwf : indexWF st0 = true)
    (hfail : "index" ∉ st0.failingKeys)
    (hnodup : ((pushedItems tr).map Item.uuid).Nodup)
    (hquiet_r :
      (runTrace { pending := [], running := none, store := st0 } tr).running =
        none)
    (hquiet_p :
      (runTrace { pending := [], running := none, store := st0 } tr).pending =
        []) :
    (∃ itemsAll,
      listItems
          (runTrace { pending := [], running := none, store := st0 } tr).store
          { includeTombstones := true } = Except.ok itemsAll ∧
      ∀ it ∈ pushedItems tr,
        itemsAll.filter (fun j => j.uuid = it.uuid) = [it]) ∧
    (∃ items,
      listItems
          (runTrace { pending := [], running := none, store := st0 } tr).store
          { includeTombstones := false } = Except.ok items ∧
      ∀ it ∈ pushedItems tr, it.trashed = false →
        items.filter (fun j => j.uuid = it.uuid) = [it]) := by
  obtain ⟨ha, hf, hw, hplace⟩ :=
    runTrace_tracking st0 kid hkid hfail tr
      { pending := [], running := none, store := st0 } []
      rfl rfl hwf (by intro j hj; cases hj) (by intro b hb; cases hb)
      (by intro j hj; cases hj) List.nodup_nil hnodup
      (by intro j hj; cases hj)
  have hkid2 :
      overviewKey
        (runTrace { pending := [], running := none, store := st0 } tr).store.agent =
        Except.ok kid := by
    rw [ha]
    exact hkid
  have hdk :=
    indexMap_distinct
      (runTrace { pending := [], running := none, store := st0 } tr).store hw
  have hentry : ∀ it ∈ pushedItems tr,
      alistGet
        (indexMap
          (runTrace { pending := [], running := none, store := st0 } tr).store)
        it.uuid = some (overviewFromItem it) := by
    intro it hit
    have hpl := hplace it (by simpa using hit)
    rcases hpl with hjp | ⟨b, hb, _⟩ | hidx
    · rw [hquiet_p] at hjp
      cases hjp
    · rw [hquiet_r] at hb
      cases hb
    · exact hidx
  constructor
  · refine ⟨_, listItems_ok _ { includeTombstones := true } kid hkid2 hw, ?_⟩
    intro it hit
    rw [filter_uuid_buildItems_true _ it.uuid hdk, hentry it hit]
    show [itemFromOverview it.uuid (overviewFromItem it)] = [it]
    rw [item_roundtrip]
  · refine ⟨_, listItems_ok _ { includeTombstones := false } kid hkid2 hw, ?_⟩
    intro it hit htr
    rw [filter_uuid_buildItems _ it.uuid hdk, hentry it hit]
    have hov : (overviewFromItem it).trashed = false := htr
    show (if (overviewFromItem it).trashed = true then []
      else [itemFromOverview it.uuid (overviewFromItem it)]) = [it]
    rw [if_neg (by rw [hov]; exact Bool.false_ne_true), item_roundtrip]

/-- A second regular sample item with a distinct uuid. -/
def sampleItem2 : Item :=
  { uuid := "u3"
    title := "Mail"
    updatedAt := 6
    createdAt := 2
    trashed := false
    typeName := "login"
    openContents := sampleOpen
    locations := ["https://mail.example"]
    account := "jim" }

/-- A concrete interleaving: the second item is pushed while the first
batch is still being flushed, so it lands in a follow-up flush. -/
def sampleTrace : List QOp :=
  [QOp.push sampleItem, QOp.push sampleItem2, QOp.complete, QOp.complete]

/-- Witness for C9 on a concrete two-item concurrent trace. -/
theorem C9_concurrent_saves_exactly_once_witness :
    (overviewKey emptyStore.agent = Except.ok "k1") ∧
    (indexWF emptyStore = true) ∧
    ("index" ∉ emptyStore.failingKeys) ∧
    (((pushedItems sampleTrace).map Item.uuid).Nodup) ∧
    ((runTrace { pending := [], running := none, store := emptyStore }
        sampleTrace).running = none) ∧
    ((runTrace { pending := [], running := none, store := emptyStore }
        sampleTrace).pending = []) ∧
    ((∃ itemsAll,
      listItems
          (runTrace { pending := [], running := none, store := emptyStore }
            sampleTrace).store
          { includeTombstones := true } = Except.ok itemsAll ∧
      ∀ it ∈ pushedItems sampleTrace,
        itemsAll.filter (fun j => j.uuid = it.uuid) = [it]) ∧
    (∃ items,
      listItems
          (runTrace { pending := [], running := none, store := emptyStore }
            sampleTrace).store
          { includeTombstones := false } = Except.ok items ∧
      ∀ it ∈ pushedItems sampleTrace, it.trashed = false →
        items.filter (fun j => j.uuid = it.uuid) = [it])) :=
  ⟨rfl, by decide, by decide, by decide, by decide, by decide,
    C9_concurrent_saves_exactly_once emptyStore sampleTrace "k1" rfl
      (by decide) (by decide) (by decide) (by decide) (by decide)⟩

end Passcards
